import Mathlib

/-!
Verification of the liveurls repository (Go): a shallow embedding of its three
program variants and proofs about the claims of its specification.

Go strings are modelled as lists of characters; Go maps keyed by status code as
association lists whose iteration order is made explicit; the concurrent parts
(dispatch loop, probes, channels, collector, signal handling) as explicit
labelled transition systems with executable step functions.
-/

set_option autoImplicit false

namespace LiveURLs

/-- A Go string, modelled as its list of characters. -/
def goStr (s : String) : List Char := s.data

/-- Model of strings.TrimSpace: drop leading and trailing white space. -/
def trimSpace (s : List Char) : List Char :=
  ((s.dropWhile Char.isWhitespace).reverse.dropWhile Char.isWhitespace).reverse

/-- The outcome of one http.Head call: a transport-level error, or a response
with a status code. -/
inductive HeadResult where
  | transportError
  | ok (statusCode : Nat)
deriving DecidableEq

/-- The normalization step at the top of checkURL (identical in all three
variants): if the url has neither the exact prefix "http://" nor the exact
prefix "https://", prepend "http://". -/
def checkURLNormalize (url : List Char) : List Char :=
  if !((goStr "http://").isPrefixOf url) && !((goStr "https://").isPrefixOf url) then
    goStr "http://" ++ url
  else
    url

/-- The scanner loop of main (all variants): each line is trimmed and appended
to the url list when the trimmed line is nonempty. -/
def scanURLs (lines : List (List Char)) : List (List Char) :=
  lines.foldl (fun acc line =>
    let url := trimSpace line
    if url ≠ [] then acc ++ [url] else acc) []

/-- strconv.Atoi applied to a one-character string: succeeds exactly on a
decimal digit. -/
def digitVal (c : Char) : Option Nat :=
  if '0' ≤ c ∧ c ≤ '9' then some (c.toNat - '0'.toNat) else none

/-- The statuses contributed by one comma-separated part inside
parseStatusRanges (classifying variant): the part is trimmed; parts shorter
than 3 characters or without the suffix "xx" are skipped, as are parts whose
first character is not a digit; otherwise the digit d contributes the full
class d*100 .. d*100+99. -/
def partStatuses (part : List Char) : List Nat :=
  let p := trimSpace part
  if p.length < 3 ∨ (goStr "xx").isSuffixOf p = false then []
  else
    match p with
    | [] => []
    | c :: _ =>
        match digitVal c with
        | none => []
        | some base => (List.range 100).map (fun i => base * 100 + i)

/-- parseStatusRanges of the classifying variant: an empty filter string means
no filter (the Go function returns nil); otherwise the union of the statuses
contributed by the comma-separated parts. -/
def parseStatusRanges (only : List Char) : Option (List Nat) :=
  if only = [] then none
  else some ((only.splitOn ',').foldl (fun acc part => acc ++ partStatuses part) [])

/-- The set of statuses selected by the filter string "2xx". -/
def ranges2xx : List Nat := (parseStatusRanges (goStr "2xx")).getD []

/-- One insertion of the classifying variant's collector:
results[result.statusCode] = append(results[result.statusCode], result.url).
The map is an association list from status code to the bucket of urls. -/
def insertResult (results : List (Nat × List (List Char))) (url : List Char)
    (statusCode : Nat) : List (Nat × List (List Char)) :=
  if results.any (fun e => e.1 == statusCode) then
    results.map (fun e => if e.1 == statusCode then (e.1, e.2 ++ [url]) else e)
  else
    results ++ [(statusCode, [url])]

/-- The collector of the classifying variant, fed the (url, status) outcomes in
the order they are received from the channel. -/
def aggregate (recvs : List (List Char × Nat)) : List (Nat × List (List Char)) :=
  recvs.foldl (fun res r => insertResult res r.1 r.2) []

/-- The bucket of a status code inside the results map. -/
def bucketOf (results : List (Nat × List (List Char))) (statusCode : Nat) :
    List (List Char) :=
  ((results.find? (fun e => e.1 == statusCode)).map (fun e => e.2)).getD []

/-- The filtered-save loop of the classifying variant: walk the results map in
the given iteration order and append the bucket of every selected status. -/
def filteredURLs (ranges : List Nat) (results : List (Nat × List (List Char))) :
    List (List Char) :=
  results.foldl (fun acc e => if ranges.contains e.1 then acc ++ e.2 else acc) []

/-- A file system as a list of (name, content) pairs; os.Create truncates, so a
new write shadows an older file of the same name. -/
def fsWrite (fs : List (List Char × List (List Char))) (name : List Char)
    (content : List (List Char)) : List (List Char × List (List Char)) :=
  (name, content) :: fs

/-- Read a file back: the most recent write wins. -/
def getFile (fs : List (List Char × List (List Char))) (name : List Char) :
    Option (List (List Char)) :=
  (fs.find? (fun e => e.1 == name)).map (fun e => e.2)

/-- Decimal rendering of a number, as in fmt.Sprintf with %d. -/
def natChars (n : Nat) : List Char := Nat.toDigits 10 n

/-- fmt.Sprintf("%s_%dxx.txt", base, status/100). -/
def classFileName (base : List Char) (statusCode : Nat) : List Char :=
  base ++ goStr "_" ++ natChars (statusCode / 100) ++ goStr "xx.txt"

/-- The default-save loop of the classifying variant: for each entry of the
results map (one entry per exact status code, walked in the given iteration
order) call saveURLs on the class-named file, each call truncating the file. -/
def saveDefaultByClass (base : List Char)
    (results : List (Nat × List (List Char))) :
    List (List Char × List (List Char)) :=
  results.foldl (fun fs e => fsWrite fs (classFileName base e.1) e.2) []

/-- A Go runtime panic relevant to processURLs startup. -/
inductive GoPanic where
  | makechanSizeOutOfRange
  | integerDivideByZero
  | newTickerNonPositive
deriving DecidableEq

/-- How a run can begin. configErrorReport is what the specification claims
happens on a non-positive rate; the code never produces it. -/
inductive StartOutcome where
  | configErrorReport
  | runtimePanic (p : GoPanic)
  | dispatching
deriving DecidableEq

/-- time.Second in nanoseconds. -/
def nanosecondsPerSecond : Int := 1000000000

/-- The first statements of processURLs (all variants):
make(chan struct{}, requestsPerSecond) panics for a negative capacity;
time.Second / time.Duration(requestsPerSecond) panics for a zero rate;
time.NewTicker panics on a non-positive interval. No configuration check is
performed anywhere. -/
def processURLsStart (requestsPerSecond : Int) : StartOutcome :=
  if requestsPerSecond < 0 then .runtimePanic .makechanSizeOutOfRange
  else if requestsPerSecond = 0 then .runtimePanic .integerDivideByZero
  else if nanosecondsPerSecond / requestsPerSecond ≤ 0 then .runtimePanic .newTickerNonPositive
  else .dispatching

/-- processURLs seen as: either it dies in its first statements, or it goes on
to probe the normalized urls. The error case carries the panic and, by
construction, no probe has been issued. -/
def processURLsRun (requestsPerSecond : Int) (urls : List (List Char)) :
    Except GoPanic (List (List Char)) :=
  match processURLsStart requestsPerSecond with
  | .runtimePanic p => .error p
  | _ => .ok (urls.map checkURLNormalize)

/-- The default of the -d flag. -/
def ratePtrDefault : Int := 10

/-- The complete flag surface of the tool (variants without --only):
-l, -o, -d, -v. There is no flag for a concurrency bound. -/
structure Flags where
  l : List Char
  o : List Char
  d : Int
  v : Bool
deriving DecidableEq

/-- The capacity of the admission semaphore, read off
make(chan struct{}, requestsPerSecond): it is the -d flag itself. -/
def semCapacityOfFlags (f : Flags) : Int := f.d

/-- The capacity of the admission semaphore as a function of the configured
requests-per-second value. -/
def semCapacity (requestsPerSecond : Nat) : Nat := requestsPerSecond

/-! ### Transition system for the signal-handling variant

The variant of liveurls.go with a stop channel: a dispatch goroutine
(processURLs followed by close(outputChan)), one prober goroutine per admitted
url, a collector goroutine appending to liveURLs, the completion-wait goroutine
that also ranges over outputChan, and the main goroutine's select between the
signal and completion, followed by saveURLs. -/

/-- A run configuration: the url list, the predetermined probe outcome of each
index, and the -d value (assumed positive here; the non-positive case is
handled by processURLsStart). -/
structure RunCfg where
  urls : List (List Char)
  res : Nat → HeadResult
  rate : Nat

/-- Program counter of the main goroutine: blocked in the select, past the
select and about to call saveURLs, or returned from saveURLs. -/
inductive MainPC where
  | waiting
  | saving
  | finished
deriving DecidableEq

/-- A global state of the signal-handling variant. -/
structure SysState where
  /-- next position of the dispatch loop in the url list -/
  idx : Nat
  /-- stopChan has been closed -/
  stopped : Bool
  /-- the operating system has delivered SIGINT/SIGTERM to sigChan -/
  sigFired : Bool
  /-- occupied slots of the admission semaphore -/
  semUsed : Nat
  /-- indices of probes started but not yet finished -/
  running : List Nat
  /-- values buffered in outputChan -/
  chanBuf : List (List Char)
  /-- outputChan has been closed -/
  chanClosed : Bool
  /-- liveURLs, appended to by the collector goroutine -/
  collected : List (List Char)
  /-- the done channel of the completion-wait goroutine has been closed -/
  doneClosed : Bool
  /-- the completion-wait goroutine has exited its range loop -/
  drainerDone : Bool
  /-- program counter of the main goroutine -/
  mainPC : MainPC
  /-- the content saveURLs wrote, none while not yet written -/
  saved : Option (List (List Char))
  /-- a goroutine performed send on a closed channel -/
  panicked : Bool
deriving DecidableEq

/-- Transition labels of the signal-handling variant. -/
inductive Lab where
  /-- the operating system delivers the interrupt -/
  | sig
  /-- dispatch: the select takes the ticker case, a semaphore slot is
  acquired and the probe goroutine of the current url starts -/
  | startProbe
  /-- dispatch: the loop is past the list, wg.Wait returns, outputChan is
  closed -/
  | dispatchEnd
  /-- dispatch: the select takes the closed stopChan case and processURLs
  returns without wg.Wait, after which outputChan is closed -/
  | stopReturn
  /-- probe i completes: on status 200 it sends the normalized url (a panic if
  outputChan is already closed), then releases its slot -/
  | finish (i : Nat)
  /-- the collector goroutine receives one value and appends it to liveURLs -/
  | collect
  /-- the completion-wait goroutine receives one value, discarding it -/
  | drainVal
  /-- the completion-wait goroutine sees outputChan closed and drained and
  closes done -/
  | drainEnd
  /-- main: the select takes the signal case, closes stopChan and moves on to
  saveURLs -/
  | mainSig
  /-- main: the select takes the done case and moves on to saveURLs -/
  | mainDone
  /-- main: saveURLs writes the current liveURLs -/
  | save
deriving DecidableEq

/-- The initial state of a run. -/
def initA : SysState :=
  { idx := 0, stopped := false, sigFired := false, semUsed := 0, running := [],
    chanBuf := [], chanClosed := false, collected := [], doneClosed := false,
    drainerDone := false, mainPC := .waiting, saved := none, panicked := false }

/-- One labelled step of the signal-handling variant; none when the label is
not enabled. A panic aborts the whole process, so nothing steps after it. -/
def stepA (cfg : RunCfg) (s : SysState) (l : Lab) : Option SysState :=
  if s.panicked then none else
  match l with
  | .sig =>
      if s.sigFired then none else some { s with sigFired := true }
  | .startProbe =>
      if ¬ s.chanClosed ∧ s.idx < cfg.urls.length ∧ s.semUsed < semCapacity cfg.rate then
        some { s with idx := s.idx + 1, semUsed := s.semUsed + 1,
                      running := s.idx :: s.running }
      else none
  | .dispatchEnd =>
      if ¬ s.chanClosed ∧ s.idx = cfg.urls.length ∧ s.running = [] then
        some { s with chanClosed := true }
      else none
  | .stopReturn =>
      if ¬ s.chanClosed ∧ s.stopped = true ∧ s.idx < cfg.urls.length then
        some { s with chanClosed := true }
      else none
  | .finish i =>
      if i ∈ s.running then
        match cfg.res i with
        | .ok 200 =>
            if s.chanClosed then
              some { s with panicked := true }
            else
              some { s with running := s.running.erase i, semUsed := s.semUsed - 1,
                            chanBuf := s.chanBuf ++ [checkURLNormalize (cfg.urls.getD i [])] }
        | _ =>
            some { s with running := s.running.erase i, semUsed := s.semUsed - 1 }
      else none
  | .collect =>
      match s.chanBuf with
      | [] => none
      | v :: rest => some { s with chanBuf := rest, collected := s.collected ++ [v] }
  | .drainVal =>
      if s.drainerDone then none else
      match s.chanBuf with
      | [] => none
      | _ :: rest => some { s with chanBuf := rest }
  | .drainEnd =>
      if ¬ s.drainerDone ∧ s.chanClosed ∧ s.chanBuf = [] then
        some { s with drainerDone := true, doneClosed := true }
      else none
  | .mainSig =>
      if s.mainPC = .waiting ∧ s.sigFired then
        some { s with stopped := true, mainPC := .saving }
      else none
  | .mainDone =>
      if s.mainPC = .waiting ∧ s.doneClosed then
        some { s with mainPC := .saving }
      else none
  | .save =>
      if s.mainPC = .saving then
        some { s with saved := some s.collected, mainPC := .finished }
      else none

/-- Run a label sequence from a state; none when some label is not enabled. -/
def runA (cfg : RunCfg) : SysState → List Lab → Option SysState
  | s, [] => some s
  | s, l :: ls =>
      match stepA cfg s l with
      | none => none
      | some s2 => runA cfg s2 ls

/-- The semaphore discipline: never more unfinished probes than occupied slots,
never more occupied slots than the capacity. -/
def semInvA (cfg : RunCfg) (s : SysState) : Prop :=
  s.running.length ≤ s.semUsed ∧ s.semUsed ≤ semCapacity cfg.rate

/-- The configuration of the run refuting the graceful-drain claim: three
urls, the first probing to status 200, the others failing at transport level. -/
def cfgC1 : RunCfg :=
  { urls := [goStr "a", goStr "b", goStr "c"],
    res := fun i => if i = 0 then .ok 200 else .transportError,
    rate := 2 }

/-! ### Transition system for the simplest variant

The first variant of liveurls.go: main itself ranges over outputChan and the
close(outputChan) statement is placed after that range loop. -/

/-- Program counter of main in the simplest variant: ranging over outputChan,
at close(outputChan), at the output-file write, or done. -/
inductive MainPC1 where
  | collecting
  | closing
  | writing
  | finished
deriving DecidableEq

/-- A global state of the simplest variant. -/
structure S1 where
  /-- next position of the dispatch loop in the url list -/
  idx : Nat
  /-- occupied slots of the admission semaphore -/
  semUsed : Nat
  /-- indices of probes started but not yet finished -/
  running : List Nat
  /-- values buffered in outputChan -/
  chanBuf : List (List Char)
  /-- the processURLs goroutine has returned (after wg.Wait) -/
  procDone : Bool
  /-- outputChan has been closed -/
  chanClosed : Bool
  /-- liveURLs as accumulated by main's range loop -/
  collected : List (List Char)
  /-- program counter of main -/
  mainPC : MainPC1
  /-- content written to the output file, none while not written -/
  fileWritten : Option (List (List Char))
  /-- a goroutine performed send on a closed channel -/
  panicked : Bool
deriving DecidableEq

/-- Transition labels of the simplest variant. -/
inductive Lab1 where
  /-- dispatch admits the current url: slot acquired, probe goroutine starts -/
  | startProbe
  /-- probe i completes, sending the normalized url when the status is 200 -/
  | finish (i : Nat)
  /-- processURLs passes wg.Wait and returns (it closes nothing) -/
  | procEnd
  /-- main's range loop receives one value and appends it to liveURLs -/
  | collect
  /-- main's range loop exits, which requires outputChan closed and drained -/
  | rangeExit
  /-- main executes close(outputChan), placed after the range loop -/
  | closeChan
  /-- main creates the output file and writes liveURLs -/
  | writeFile
deriving DecidableEq

/-- The initial state of a run of the simplest variant. -/
def init1 : S1 :=
  { idx := 0, semUsed := 0, running := [], chanBuf := [], procDone := false,
    chanClosed := false, collected := [], mainPC := .collecting,
    fileWritten := none, panicked := false }

/-- One labelled step of the simplest variant. -/
def step1 (cfg : RunCfg) (s : S1) (l : Lab1) : Option S1 :=
  if s.panicked then none else
  match l with
  | .startProbe =>
      if ¬ s.procDone ∧ s.idx < cfg.urls.length ∧ s.semUsed < semCapacity cfg.rate then
        some { s with idx := s.idx + 1, semUsed := s.semUsed + 1,
                      running := s.idx :: s.running }
      else none
  | .finish i =>
      if i ∈ s.running then
        match cfg.res i with
        | .ok 200 =>
            if s.chanClosed then
              some { s with panicked := true }
            else
              some { s with running := s.running.erase i, semUsed := s.semUsed - 1,
                            chanBuf := s.chanBuf ++ [checkURLNormalize (cfg.urls.getD i [])] }
        | _ =>
            some { s with running := s.running.erase i, semUsed := s.semUsed - 1 }
      else none
  | .procEnd =>
      if ¬ s.procDone ∧ s.idx = cfg.urls.length ∧ s.running = [] then
        some { s with procDone := true }
      else none
  | .collect =>
      if s.mainPC = .collecting then
        match s.chanBuf with
        | [] => none
        | v :: rest => some { s with chanBuf := rest, collected := s.collected ++ [v] }
      else none
  | .rangeExit =>
      if s.mainPC = .collecting ∧ s.chanClosed ∧ s.chanBuf = [] then
        some { s with mainPC := .closing }
      else none
  | .closeChan =>
      if s.mainPC = .closing then
        some { s with chanClosed := true, mainPC := .writing }
      else none
  | .writeFile =>
      if s.mainPC = .writing then
        some { s with fileWritten := some s.collected, mainPC := .finished }
      else none

/-- Run a label sequence of the simplest variant. -/
def run1 (cfg : RunCfg) : S1 → List Lab1 → Option S1
  | s, [] => some s
  | s, l :: ls =>
      match step1 cfg s l with
      | none => none
      | some s2 => run1 cfg s2 ls

/-- The structural invariant that dooms the simplest variant: outputChan is
never closed, main never leaves its range loop, and the output file is never
written. -/
def lockInv (s : S1) : Prop :=
  s.chanClosed = false ∧ s.mainPC = MainPC1.collecting ∧ s.fileWritten = none

/-- Semaphore discipline of the simplest variant. -/
def semInv1 (cfg : RunCfg) (s : S1) : Prop :=
  s.running.length ≤ s.semUsed ∧ s.semUsed ≤ semCapacity cfg.rate

/-- Configuration of the all-probes-fail scenario: one url, transport error. -/
def cfgC3 : RunCfg :=
  { urls := [goStr "a"], res := fun _ => .transportError, rate := 10 }

/-- The state the all-probes-fail run of the simplest variant gets stuck in:
dispatch done, nothing buffered, main blocked in its range loop, no file. -/
def stuckC3 : S1 :=
  { idx := 1, semUsed := 0, running := [], chanBuf := [], procDone := true,
    chanClosed := false, collected := [], mainPC := .collecting,
    fileWritten := none, panicked := false }

/-- Configuration of the one-live-url scenario: one url answering 200. -/
def cfgC6 : RunCfg :=
  { urls := [goStr "ok"], res := fun _ => .ok 200, rate := 10 }

/-- The state the one-live-url run of the simplest variant gets stuck in: the
200 outcome was collected into liveURLs, but no file is written and no step is
enabled. -/
def stuckC6 : S1 :=
  { idx := 1, semUsed := 0, running := [], chanBuf := [], procDone := true,
    chanClosed := false, collected := [goStr "http://ok"], mainPC := .collecting,
    fileWritten := none, panicked := false }

/-! ### Invariant lemmas for the two transition systems -/

/-- Every enabled step of the signal-handling variant preserves the semaphore
discipline. -/
theorem stepA_semInvA {cfg : RunCfg} {s s2 : SysState} {l : Lab}
    (h : semInvA cfg s) (hs : stepA cfg s l = some s2) : semInvA cfg s2 := by
  obtain ⟨h1, h2⟩ := h
  cases l with
  | sig =>
      simp only [stepA] at hs
      split at hs
      · exact Option.noConfusion hs
      split at hs
      · exact Option.noConfusion hs
      · injection hs with hs; subst hs; exact ⟨h1, h2⟩
  | startProbe =>
      simp only [stepA] at hs
      split at hs
      · exact Option.noConfusion hs
      split at hs
      · rename_i hc
        injection hs with hs; subst hs
        exact ⟨by simpa using Nat.succ_le_succ h1, hc.2.2⟩
      · exact Option.noConfusion hs
  | dispatchEnd =>
      simp only [stepA] at hs
      split at hs
      · exact Option.noConfusion hs
      split at hs
      · injection hs with hs; subst hs; exact ⟨h1, h2⟩
      · exact Option.noConfusion hs
  | stopReturn =>
      simp only [stepA] at hs
      split at hs
      · exact Option.noConfusion hs
      split at hs
      · injection hs with hs; subst hs; exact ⟨h1, h2⟩
      · exact Option.noConfusion hs
  | finish i =>
      simp only [stepA] at hs
      split at hs
      · exact Option.noConfusion hs
      split at hs
      · rename_i hmem
        have hlen := List.length_erase_of_mem hmem
        have hpos : 0 < s.running.length := List.length_pos_of_mem hmem
        split at hs
        · split at hs
          · injection hs with hs; subst hs; exact ⟨h1, h2⟩
          · injection hs with hs; subst hs
            refine ⟨?_, ?_⟩
            · show (s.running.erase i).length ≤ s.semUsed - 1
              rw [hlen]; omega
            · show s.semUsed - 1 ≤ semCapacity cfg.rate
              omega
        · injection hs with hs; subst hs
          refine ⟨?_, ?_⟩
          · show (s.running.erase i).length ≤ s.semUsed - 1
            rw [hlen]; omega
          · show s.semUsed - 1 ≤ semCapacity cfg.rate
            omega
      · exact Option.noConfusion hs
  | collect =>
      simp only [stepA] at hs
      split at hs
      · exact Option.noConfusion hs
      split at hs
      · exact Option.noConfusion hs
      · injection hs with hs; subst hs; exact ⟨h1, h2⟩
  | drainVal =>
      simp only [stepA] at hs
      split at hs
      · exact Option.noConfusion hs
      split at hs
      · exact Option.noConfusion hs
      split at hs
      · exact Option.noConfusion hs
      · injection hs with hs; subst hs; exact ⟨h1, h2⟩
  | drainEnd =>
      simp only [stepA] at hs
      split at hs
      · exact Option.noConfusion hs
      split at hs
      · injection hs with hs; subst hs; exact ⟨h1, h2⟩
      · exact Option.noConfusion hs
  | mainSig =>
      simp only [stepA] at hs
      split at hs
      · exact Option.noConfusion hs
      split at hs
      · injection hs with hs; subst hs; exact ⟨h1, h2⟩
      · exact Option.noConfusion hs
  | mainDone =>
      simp only [stepA] at hs
      split at hs
      · exact Option.noConfusion hs
      split at hs
      · injection hs with hs; subst hs; exact ⟨h1, h2⟩
      · exact Option.noConfusion hs
  | save =>
      simp only [stepA] at hs
      split at hs
      · exact Option.noConfusion hs
      split at hs
      · injection hs with hs; subst hs; exact ⟨h1, h2⟩
      · exact Option.noConfusion hs

/-- The semaphore discipline holds along every run of the signal-handling
variant. -/
theorem runA_semInvA {cfg : RunCfg} : ∀ (ls : List Lab) (s s2 : SysState),
    semInvA cfg s → runA cfg s ls = some s2 → semInvA cfg s2
  | [], s, s2, h, hr => by
      simp only [runA, Option.some.injEq] at hr
      subst hr
      exact h
  | l :: ls, s, s2, h, hr => by
      simp only [runA] at hr
      cases hm : stepA cfg s l with
      | none => rw [hm] at hr; exact Option.noConfusion hr
      | some s1 =>
          rw [hm] at hr
          exact runA_semInvA ls s1 s2 (stepA_semInvA h hm) hr

/-- Every enabled step of the simplest variant preserves the semaphore
discipline. -/
theorem step1_semInv1 {cfg : RunCfg} {s s2 : S1} {l : Lab1}
    (h : semInv1 cfg s) (hs : step1 cfg s l = some s2) : semInv1 cfg s2 := by
  obtain ⟨h1, h2⟩ := h
  cases l with
  | startProbe =>
      simp only [step1] at hs
      split at hs
      · exact Option.noConfusion hs
      split at hs
      · rename_i hc
        injection hs with hs; subst hs
        exact ⟨by simpa using Nat.succ_le_succ h1, hc.2.2⟩
      · exact Option.noConfusion hs
  | finish i =>
      simp only [step1] at hs
      split at hs
      · exact Option.noConfusion hs
      split at hs
      · rename_i hmem
        have hlen := List.length_erase_of_mem hmem
        have hpos : 0 < s.running.length := List.length_pos_of_mem hmem
        split at hs
        · split at hs
          · injection hs with hs; subst hs; exact ⟨h1, h2⟩
          · injection hs with hs; subst hs
            refine ⟨?_, ?_⟩
            · show (s.running.erase i).length ≤ s.semUsed - 1
              rw [hlen]; omega
            · show s.semUsed - 1 ≤ semCapacity cfg.rate
              omega
        · injection hs with hs; subst hs
          refine ⟨?_, ?_⟩
          · show (s.running.erase i).length ≤ s.semUsed - 1
            rw [hlen]; omega
          · show s.semUsed - 1 ≤ semCapacity cfg.rate
            omega
      · exact Option.noConfusion hs
  | procEnd =>
      simp only [step1] at hs
      split at hs
      · exact Option.noConfusion hs
      split at hs
      · injection hs with hs; subst hs; exact ⟨h1, h2⟩
      · exact Option.noConfusion hs
  | collect =>
      simp only [step1] at hs
      split at hs
      · exact Option.noConfusion hs
      split at hs
      · split at hs
        · exact Option.noConfusion hs
        · injection hs with hs; subst hs; exact ⟨h1, h2⟩
      · exact Option.noConfusion hs
  | rangeExit =>
      simp only [step1] at hs
      split at hs
      · exact Option.noConfusion hs
      split at hs
      · injection hs with hs; subst hs; exact ⟨h1, h2⟩
      · exact Option.noConfusion hs
  | closeChan =>
      simp only [step1] at hs
      split at hs
      · exact Option.noConfusion hs
      split at hs
      · injection hs with hs; subst hs; exact ⟨h1, h2⟩
      · exact Option.noConfusion hs
  | writeFile =>
      simp only [step1] at hs
      split at hs
      · exact Option.noConfusion hs
      split at hs
      · injection hs with hs; subst hs; exact ⟨h1, h2⟩
      · exact Option.noConfusion hs

/-- The semaphore discipline holds along every run of the simplest variant. -/
theorem run1_semInv1 {cfg : RunCfg} : ∀ (ls : List Lab1) (s s2 : S1),
    semInv1 cfg s → run1 cfg s ls = some s2 → semInv1 cfg s2
  | [], s, s2, h, hr => by
      simp only [run1, Option.some.injEq] at hr
      subst hr
      exact h
  | l :: ls, s, s2, h, hr => by
      simp only [run1] at hr
      cases hm : step1 cfg s l with
      | none => rw [hm] at hr; exact Option.noConfusion hr
      | some s1 =>
          rw [hm] at hr
          exact run1_semInv1 ls s1 s2 (step1_semInv1 h hm) hr

/-- Every enabled step of the simplest variant preserves lockInv: main cannot
leave its range loop before the channel is closed, and the only close statement
comes after that loop. -/
theorem step1_lockInv {cfg : RunCfg} {s s2 : S1} {l : Lab1}
    (h : lockInv s) (hs : step1 cfg s l = some s2) : lockInv s2 := by
  obtain ⟨h1, h2, h3⟩ := h
  cases l <;> simp only [step1] at hs <;> (repeat' split at hs) <;>
    first
      | exact Option.noConfusion hs
      | (injection hs with hs; subst hs; exact ⟨h1, h2, h3⟩)
      | (rename_i hc; rw [h1] at hc; exact absurd hc (by simp))
      | (rename_i hc; rw [h2] at hc; exact absurd hc (by simp))

/-- lockInv holds along every run of the simplest variant. -/
theorem run1_lockInv {cfg : RunCfg} : ∀ (ls : List Lab1) (s s2 : S1),
    lockInv s → run1 cfg s ls = some s2 → lockInv s2
  | [], s, s2, h, hr => by
      simp only [run1, Option.some.injEq] at hr
      subst hr
      exact h
  | l :: ls, s, s2, h, hr => by
      simp only [run1] at hr
      cases hm : step1 cfg s l with
      | none => rw [hm] at hr; exact Option.noConfusion hr
      | some s1 =>
          rw [hm] at hr
          exact run1_lockInv ls s1 s2 (step1_lockInv h hm) hr

/-! ### Lemmas about normalization -/

/-- A url that already carries one of the two exact scheme prefixes is left
unchanged by checkURL's normalization. -/
theorem checkURLNormalize_of_scheme {u : List Char}
    (h : ((goStr "http://").isPrefixOf u || (goStr "https://").isPrefixOf u) = true) :
    checkURLNormalize u = u := by
  unfold checkURLNormalize
  cases hp : (goStr "http://").isPrefixOf u <;>
    cases hq : (goStr "https://").isPrefixOf u <;> simp_all

/-- A url with neither exact scheme prefix gets "http://" prepended to the
whole string. -/
theorem checkURLNormalize_no_scheme {u : List Char}
    (h1 : (goStr "http://").isPrefixOf u = false)
    (h2 : (goStr "https://").isPrefixOf u = false) :
    checkURLNormalize u = goStr "http://" ++ u := by
  unfold checkURLNormalize
  simp [h1, h2]

/-- Normalization is idempotent: the default scheme is prepended at most
once. -/
theorem checkURLNormalize_idem (u : List Char) :
    checkURLNormalize (checkURLNormalize u) = checkURLNormalize u := by
  cases hp : (goStr "http://").isPrefixOf u
  · cases hq : (goStr "https://").isPrefixOf u
    · rw [checkURLNormalize_no_scheme hp hq]
      apply checkURLNormalize_of_scheme
      have hpre : (goStr "http://").isPrefixOf (goStr "http://" ++ u) = true := by
        simp [List.isPrefixOf_iff_prefix]
      simp [hpre]
    · have hfix := checkURLNormalize_of_scheme (u := u) (by simp [hq])
      rw [hfix, hfix]
  · have hfix := checkURLNormalize_of_scheme (u := u) (by simp [hp])
    rw [hfix, hfix]

/-! ### Lemmas about the classifying aggregation and save -/

/-- The bump function used by insertResult preserves keys, so find? by key
commutes with it. -/
theorem find?_map_bump (res : List (Nat × List (List Char))) (u : List Char)
    (st0 st : Nat) :
    (res.map (fun e => if e.1 == st0 then (e.1, e.2 ++ [u]) else e)).find?
        (fun e => e.1 == st) =
      (res.find? (fun e => e.1 == st)).map
        (fun e => if e.1 == st0 then (e.1, e.2 ++ [u]) else e) := by
  induction res with
  | nil => rfl
  | cons e l ih =>
      simp only [List.map_cons, List.find?_cons]
      have hfe : (if e.1 == st0 then (e.1, e.2 ++ [u]) else e).1 = e.1 := by
        split <;> rfl
      rw [hfe]
      cases hp : (e.1 == st)
      · exact ih
      · rfl

/-- Effect of one insertion on one bucket: the bucket of the inserted status
gains the url at its end, every other bucket is untouched. -/
theorem bucketOf_insertResult (res : List (Nat × List (List Char))) (u : List Char)
    (st0 st : Nat) :
    bucketOf (insertResult res u st0) st =
      if st = st0 then bucketOf res st ++ [u] else bucketOf res st := by
  unfold insertResult bucketOf
  by_cases hany : res.any (fun e => e.1 == st0) = true
  · rw [if_pos hany, find?_map_bump]
    cases hf : res.find? (fun e => e.1 == st) with
    | none =>
        by_cases hst : st = st0
        · subst hst
          rcases List.any_eq_true.mp hany with ⟨x, hx, hpx⟩
          exact absurd hpx (List.find?_eq_none.mp hf x hx)
        · simp [hst]
    | some e =>
        have he : e.1 = st := by
          have := List.find?_some hf
          simpa using this
        by_cases hst : st = st0
        · subst hst
          simp [he]
        · have hne : ¬ (e.1 = st0) := by omega
          simp [hst, hne]
  · rw [if_neg hany]
    have hnone : res.find? (fun e => e.1 == st0) = none := by
      refine List.find?_eq_none.mpr ?_
      intro x hx hpx
      exact hany (List.any_eq_true.mpr ⟨x, hx, hpx⟩)
    by_cases hst : st = st0
    · subst hst
      rw [List.find?_append, hnone]
      simp
    · rw [List.find?_append]
      have hne : ((st0 : Nat) == st) = false := by
        rw [beq_eq_false_iff_ne]
        omega
      have h2 : ([((st0 : Nat), [u])].find? (fun e => e.1 == st)) = none := by
        simp [List.find?_cons, hne]
      rw [h2]
      simp [hst]

/-- Folding the collector over received outcomes grows each bucket by exactly
that status's urls, in receive order. -/
theorem bucketOf_aggregate_loop (recvs : List (List Char × Nat)) :
    ∀ (res : List (Nat × List (List Char))) (st : Nat),
    bucketOf (recvs.foldl (fun r x => insertResult r x.1 x.2) res) st =
      bucketOf res st ++ (recvs.filter (fun r => r.2 == st)).map (fun r => r.1) := by
  induction recvs with
  | nil => intro res st; simp
  | cons x rest ih =>
      intro res st
      simp only [List.foldl_cons]
      rw [ih, bucketOf_insertResult]
      by_cases hst : st = x.2
      · rw [if_pos hst]
        simp [List.filter_cons, hst, List.append_assoc]
      · rw [if_neg hst]
        have hbeq : (x.2 == st) = false := by
          rw [beq_eq_false_iff_ne]
          omega
        simp [List.filter_cons, hbeq]

/-- The filtered-save fold is the concatenation of the selected buckets in
iteration order. -/
theorem filteredURLs_loop (ranges : List Nat) (results : List (Nat × List (List Char))) :
    ∀ acc : List (List Char),
    results.foldl (fun a e => if ranges.contains e.1 then a ++ e.2 else a) acc =
      acc ++ ((results.filter (fun e => ranges.contains e.1)).map (fun e => e.2)).flatten := by
  induction results with
  | nil => intro acc; simp
  | cons e l ih =>
      intro acc
      simp only [List.foldl_cons]
      by_cases hc : ranges.contains e.1 = true
      · rw [if_pos hc, ih]
        have hmem : e.1 ∈ ranges := by simpa using hc
        simp [List.filter_cons, hmem, List.append_assoc]
      · rw [if_neg hc, ih]
        have hmem : e.1 ∉ ranges := by simpa using hc
        simp [List.filter_cons, hmem]

/-- The statuses selected by "2xx" are literally 200 .. 299. -/
theorem ranges2xx_eq : ranges2xx = (List.range 100).map (fun i => 2 * 100 + i) := by
  decide

/-- The scanner fold appends exactly the trimmed nonempty lines, in input
order. -/
theorem scanURLs_loop (lines : List (List Char)) :
    ∀ acc : List (List Char),
    lines.foldl (fun acc line =>
        let url := trimSpace line
        if url ≠ [] then acc ++ [url] else acc) acc =
      acc ++ (lines.map trimSpace).filter (fun u => u ≠ []) := by
  induction lines with
  | nil => intro acc; simp
  | cons x xs ih =>
      intro acc
      simp only [List.foldl_cons, List.map_cons]
      by_cases hx : trimSpace x ≠ []
      · rw [if_pos hx, ih]
        simp [List.filter_cons, hx, List.append_assoc]
      · rw [if_neg hx, ih]
        have hx2 : trimSpace x = [] := of_not_not hx
        simp [List.filter_cons, hx2]

/-- main's scanner keeps exactly the trimmed nonempty lines: every line that is
blank after trimming is ignored, every other line is kept trimmed, in input
order. -/
theorem scanURLs_eq_filter (lines : List (List Char)) :
    scanURLs lines = (lines.map trimSpace).filter (fun u => u ≠ []) := by
  have := scanURLs_loop lines []
  simpa [scanURLs] using this

/-! ### Claim theorems -/

/-- Claim C3: the specification says an all-transport-failure run of the
simplest variant terminates normally, writing output artifacts with zero
endpoints and exiting non-fatally. The code disagrees: close(outputChan) is
placed after main's range loop over outputChan, so the channel is never
closed, the range loop never exits, the output file is never created, and the
run ends in a state where no step is enabled (the Go runtime then aborts with
a deadlock fatal error). -/
theorem simplest_variant_never_writes_output :
    (∀ (cfg : RunCfg) (ls : List Lab1) (s : S1),
        run1 cfg init1 ls = some s → s.fileWritten = none ∧ s.chanClosed = false) ∧
    run1 cfgC3 init1 [Lab1.startProbe, Lab1.finish 0, Lab1.procEnd] = some stuckC3 ∧
    (∀ l : Lab1, step1 cfgC3 stuckC3 l = none) := by
  refine ⟨?_, by decide, ?_⟩
  · intro cfg ls s h
    have hinv := run1_lockInv ls init1 s ⟨rfl, rfl, rfl⟩ h
    exact ⟨hinv.2.2, hinv.1⟩
  · intro l
    cases l <;> simp [step1, stuckC3, cfgC3]

/-- Witness for C3 at a concrete run: the empty label sequence reaches the
initial state, where no file is written and the channel is open. -/
theorem simplest_variant_never_writes_output_witness :
    init1.fileWritten = none ∧ init1.chanClosed = false :=
  simplest_variant_never_writes_output.1 cfgC3 [] init1 rfl

/-- Claim C6: the specification says that in the simplest variant the
normalized endpoint appears in the output file exactly when its HEAD probe
returned 200. The code never produces the output file at all: in the run below
the probe of "ok" returns 200 and its normalized url is collected into
liveURLs, but the run reaches a state with no file written and no step
enabled (deadlock before the write loop). -/
theorem ok_probe_collected_but_never_saved :
    run1 cfgC6 init1 [Lab1.startProbe, Lab1.finish 0, Lab1.procEnd, Lab1.collect] =
      some stuckC6 ∧
    stuckC6.collected = [goStr "http://ok"] ∧
    stuckC6.fileWritten = none ∧
    (∀ l : Lab1, step1 cfgC6 stuckC6 l = none) := by
  refine ⟨by decide, by decide, by decide, ?_⟩
  intro l
  cases l <;> simp [step1, stuckC6, cfgC6]

/-- Witness for C6: the stuck state of the one-live-url run enables no step,
in particular not the file write. -/
theorem ok_probe_collected_but_never_saved_witness :
    step1 cfgC6 stuckC6 Lab1.writeFile = none :=
  ok_probe_collected_but_never_saved.2.2.2 Lab1.writeFile

/-- Claim C1: the specification mandates graceful drain on cancellation: every
started probe runs to completion, its outcome is recorded in the final report,
and the process exits zero. The code disagrees in two ways, exhibited by two
runs of the signal-handling variant. First run: after the interrupt the
dispatch loop returns without wg.Wait and outputChan is closed while probe 0
is in flight; when that probe completes with status 200 it sends on the closed
channel and the process panics (non-zero exit) with nothing saved. Second run:
main calls saveURLs immediately after the interrupt, before in-flight probe 0
completes; the saved report is empty even though probe 0 later completes and
its outcome reaches liveURLs only after the save. -/
theorem cancellation_drops_or_panics :
    runA cfgC1 initA [Lab.startProbe, Lab.sig, Lab.mainSig, Lab.stopReturn, Lab.finish 0] =
      some { idx := 1, stopped := true, sigFired := true, semUsed := 1, running := [0],
             chanBuf := [], chanClosed := true, collected := [], doneClosed := false,
             drainerDone := false, mainPC := .saving, saved := none, panicked := true } ∧
    runA cfgC1 initA [Lab.startProbe, Lab.sig, Lab.mainSig, Lab.save, Lab.finish 0, Lab.collect] =
      some { idx := 1, stopped := true, sigFired := true, semUsed := 0, running := [],
             chanBuf := [], chanClosed := false, collected := [goStr "http://a"],
             doneClosed := false, drainerDone := false, mainPC := .finished,
             saved := some [], panicked := false } := by
  constructor
  · decide
  · decide

/-- Claim C2: the specification says the classifying variant without a filter
writes one file per observed status class containing all endpoints of that
class. The default-save loop actually iterates per exact status code and
truncates the class-named file on each write, so when statuses 200 and 204 are
both observed, status_2xx.txt ends up holding only the urls of whichever
status was iterated last — in either map iteration order one 2xx endpoint is
missing. -/
theorem class_file_overwritten_per_status :
    getFile (saveDefaultByClass (goStr "status") [(200, [goStr "a"]), (204, [goStr "b"])])
        (goStr "status_2xx.txt") = some [goStr "b"] ∧
    getFile (saveDefaultByClass (goStr "status") [(204, [goStr "b"]), (200, [goStr "a"])])
        (goStr "status_2xx.txt") = some [goStr "a"] := by
  constructor
  · decide
  · decide

/-- Claim C4, counterexample to independence: the admission gate's capacity is
make(chan struct{}, requestsPerSecond), i.e. the -d flag itself. Two flag
configurations that differ only in the rate flag necessarily differ in
concurrency capacity, so the capacity is not configurable independently of the
rate. -/
theorem sem_capacity_tracks_rate :
    semCapacityOfFlags { l := [], o := goStr "live_urls.txt", d := 10, v := false } = 10 ∧
    semCapacityOfFlags { l := [], o := goStr "live_urls.txt", d := 3, v := false } = 3 ∧
    semCapacityOfFlags { l := [], o := goStr "live_urls.txt", d := 10, v := false } ≠
      semCapacityOfFlags { l := [], o := goStr "live_urls.txt", d := 3, v := false } := by
  refine ⟨rfl, rfl, by decide⟩

/-- Claim C4 (amended): in every reachable state of either variant the number
of probes running concurrently never exceeds the semaphore capacity — but that
capacity is the configured requests-per-second value, not an independent
concurrency setting. -/
theorem concurrent_probers_le_capacity :
    (∀ (cfg : RunCfg) (ls : List Lab) (s : SysState),
        runA cfg initA ls = some s → s.running.length ≤ semCapacity cfg.rate) ∧
    (∀ (cfg : RunCfg) (ls : List Lab1) (s : S1),
        run1 cfg init1 ls = some s → s.running.length ≤ semCapacity cfg.rate) := by
  constructor
  · intro cfg ls s h
    have hinv := runA_semInvA ls initA s ⟨Nat.le_refl 0, Nat.zero_le _⟩ h
    exact le_trans hinv.1 hinv.2
  · intro cfg ls s h
    have hinv := run1_semInv1 ls init1 s ⟨Nat.le_refl 0, Nat.zero_le _⟩ h
    exact le_trans hinv.1 hinv.2

/-- Witness for C4 at concrete runs of both variants. -/
theorem concurrent_probers_le_capacity_witness :
    initA.running.length ≤ semCapacity cfgC1.rate ∧
    init1.running.length ≤ semCapacity cfgC3.rate :=
  ⟨concurrent_probers_le_capacity.1 cfgC1 [] initA rfl,
   concurrent_probers_le_capacity.2 cfgC3 [] init1 rfl⟩

/-- Claim C5, counterexample: at rate 0 the program does not report a
configuration error; processURLs panics with an integer division by zero
(time.Second / time.Duration(0)), and at a negative rate it panics inside
make(chan struct{}, rate). -/
theorem rate_zero_panics_not_config_error :
    processURLsStart 0 = StartOutcome.runtimePanic GoPanic.integerDivideByZero ∧
    processURLsStart 0 ≠ StartOutcome.configErrorReport ∧
    processURLsStart (-5) = StartOutcome.runtimePanic GoPanic.makechanSizeOutOfRange := by
  refine ⟨by decide, by decide, by decide⟩

/-- Claim C5 (amended): a zero or negative rate terminates the run before any
probe is issued, but via a runtime panic rather than a reported configuration
error; the default of the rate flag is 10. -/
theorem nonpositive_rate_panics_before_probing (r : Int) (urls : List (List Char))
    (h : r ≤ 0) :
    (r < 0 → processURLsRun r urls = Except.error GoPanic.makechanSizeOutOfRange) ∧
    (r = 0 → processURLsRun r urls = Except.error GoPanic.integerDivideByZero) ∧
    (∀ targets : List (List Char), processURLsRun r urls ≠ Except.ok targets) ∧
    ratePtrDefault = 10 := by
  refine ⟨?_, ?_, ?_, rfl⟩
  · intro hr
    simp [processURLsRun, processURLsStart, hr]
  · intro hr
    subst hr
    simp [processURLsRun, processURLsStart]
  · intro targets
    rcases lt_or_eq_of_le h with hr | hr
    · simp [processURLsRun, processURLsStart, hr]
    · subst hr
      simp [processURLsRun, processURLsStart]

/-- Witness for C5 at rate 0. -/
theorem nonpositive_rate_panics_before_probing_witness :
    processURLsRun 0 [goStr "a"] = Except.error GoPanic.integerDivideByZero :=
  (nonpositive_rate_panics_before_probing 0 [goStr "a"] (by decide)).2.1 rfl

/-- Claim C7, counterexample to global completion order: with filter "2xx" and
outcomes received in the order a:200, b:204, c:200, the filtered save walks the
results map per status, so in either of the two possible map iteration orders
the file is a:200-group then b, or b then a:200-group — never the completion
order a, b, c. -/
theorem filtered_output_not_completion_order :
    aggregate [(goStr "a", 200), (goStr "b", 204), (goStr "c", 200)] =
      [(200, [goStr "a", goStr "c"]), (204, [goStr "b"])] ∧
    filteredURLs ranges2xx [(200, [goStr "a", goStr "c"]), (204, [goStr "b"])] =
      [goStr "a", goStr "c", goStr "b"] ∧
    filteredURLs ranges2xx [(204, [goStr "b"]), (200, [goStr "a", goStr "c"])] =
      [goStr "b", goStr "a", goStr "c"] ∧
    [goStr "a", goStr "c", goStr "b"] ≠ [goStr "a", goStr "b", goStr "c"] ∧
    [goStr "b", goStr "a", goStr "c"] ≠ [goStr "a", goStr "b", goStr "c"] := by
  refine ⟨by decide, by decide, by decide, by decide, by decide⟩

/-- Claim C7 (amended): "2xx" selects exactly the statuses 200 .. 299; the
filtered file holds exactly the endpoints of the selected statuses — each
status's endpoints contiguously in completion order, statuses concatenated in
map iteration order rather than globally by completion; the specification's
single-status scenario (filter "2xx", statuses 200, 200, 404) therefore does
come out in completion order. -/
theorem filtered_output_content_and_ranges :
    (∀ n : Nat, n ∈ ranges2xx ↔ 200 ≤ n ∧ n ≤ 299) ∧
    (∀ (recvs : List (List Char × Nat)) (st : Nat),
        bucketOf (aggregate recvs) st =
          (recvs.filter (fun r => r.2 == st)).map (fun r => r.1)) ∧
    (∀ (ranges : List Nat) (results : List (Nat × List (List Char))),
        filteredURLs ranges results =
          ((results.filter (fun e => ranges.contains e.1)).map (fun e => e.2)).flatten) ∧
    filteredURLs ranges2xx
        (aggregate [(goStr "u1", 200), (goStr "u2", 200), (goStr "u3", 404)]) =
      [goStr "u1", goStr "u2"] := by
  refine ⟨?_, ?_, ?_, by decide⟩
  · intro n
    rw [ranges2xx_eq]
    simp only [List.mem_map, List.mem_range]
    constructor
    · rintro ⟨i, hi, rfl⟩
      omega
    · intro hn
      exact ⟨n - 200, by omega, by omega⟩
  · intro recvs st
    have := bucketOf_aggregate_loop recvs [] st
    simpa [aggregate, bucketOf] using this
  · intro ranges results
    have := filteredURLs_loop ranges results []
    simpa [filteredURLs] using this

/-- Witness for C7 at concrete inputs. -/
theorem filtered_output_content_and_ranges_witness :
    (250 ∈ ranges2xx ↔ 200 ≤ 250 ∧ 250 ≤ 299) ∧
    bucketOf (aggregate [(goStr "a", 200)]) 200 =
      ([(goStr "a", 200)].filter (fun r => r.2 == 200)).map (fun r => r.1) :=
  ⟨filtered_output_content_and_ranges.1 250,
   filtered_output_content_and_ranges.2.1 [(goStr "a", 200)] 200⟩

/-- Claim C8: for every input, each line that is blank after trimming is
ignored and the rest are kept trimmed in input order; every endpoint lacking
the two exact scheme prefixes gets "http://" prepended, one that already
carries a scheme is probed unchanged, and normalization is idempotent, so the
prefix is prepended exactly once and never mutates the stored string; the
specification's scenario input comes out as exactly two probe targets with
"example.com" normalized. -/
theorem blank_skip_and_scheme_normalization :
    (∀ lines : List (List Char),
        scanURLs lines = (lines.map trimSpace).filter (fun u => u ≠ [])) ∧
    (∀ u : List Char,
        ((goStr "http://").isPrefixOf u || (goStr "https://").isPrefixOf u) = false →
        checkURLNormalize u = goStr "http://" ++ u) ∧
    scanURLs [goStr "example.com", goStr "https://ok.test", goStr ""] =
      [goStr "example.com", goStr "https://ok.test"] ∧
    checkURLNormalize (goStr "example.com") = goStr "http://example.com" ∧
    (∀ u : List Char,
        ((goStr "http://").isPrefixOf u || (goStr "https://").isPrefixOf u) = true →
        checkURLNormalize u = u) ∧
    (∀ u : List Char, checkURLNormalize (checkURLNormalize u) = checkURLNormalize u) :=
  ⟨scanURLs_eq_filter,
   fun _ h => by
     simp only [Bool.or_eq_false_iff] at h
     exact checkURLNormalize_no_scheme h.1 h.2,
   by decide, by decide, fun _ h => checkURLNormalize_of_scheme h,
   checkURLNormalize_idem⟩

/-- Witness for C8: a scheme-less endpoint gets the prefix prepended, and an
endpoint already carrying a scheme is unchanged. -/
theorem blank_skip_and_scheme_normalization_witness :
    checkURLNormalize (goStr "example.com") = goStr "http://" ++ goStr "example.com" ∧
    checkURLNormalize (goStr "https://ok.test") = goStr "https://ok.test" :=
  ⟨blank_skip_and_scheme_normalization.2.1 (goStr "example.com") (by decide),
   blank_skip_and_scheme_normalization.2.2.2.2.1 (goStr "https://ok.test") (by decide)⟩

/-- Claim C9: the scheme check is an exact, case-sensitive prefix match: any
endpoint lacking the two exact prefixes — including other scheme spellings —
has "http://" prepended to the entire original string, e.g. "HTTPS://host"
probes as "http://HTTPS://host" and "ftp://host" as "http://ftp://host". -/
theorem case_sensitive_scheme_check :
    (∀ u : List Char, (goStr "http://").isPrefixOf u = false →
        (goStr "https://").isPrefixOf u = false →
        checkURLNormalize u = goStr "http://" ++ u) ∧
    checkURLNormalize (goStr "HTTPS://host") = goStr "http://HTTPS://host" ∧
    checkURLNormalize (goStr "ftp://host") = goStr "http://ftp://host" :=
  ⟨fun _ h1 h2 => checkURLNormalize_no_scheme h1 h2, by decide, by decide⟩

/-- Witness for C9 at a concrete unknown scheme. -/
theorem case_sensitive_scheme_check_witness :
    checkURLNormalize (goStr "ftp://x") = goStr "http://" ++ goStr "ftp://x" :=
  case_sensitive_scheme_check.1 (goStr "ftp://x") (by decide) (by decide)

/-- Claim C10: parseStatusRanges ignores malformed selectors silently: trimmed
parts shorter than 3 characters, without suffix "xx", or whose first character
is not a digit contribute no statuses; any part with suffix "xx" and a digit
first character — even longer than 3, like "20xx" — selects the full class;
the empty filter string yields no filter. -/
theorem parse_status_ranges_lenient :
    parseStatusRanges (goStr "") = none ∧
    (∀ part : List Char, (trimSpace part).length < 3 → partStatuses part = []) ∧
    (∀ part : List Char, (goStr "xx").isSuffixOf (trimSpace part) = false →
        partStatuses part = []) ∧
    (∀ (part : List Char) (c : Char) (rest : List Char),
        trimSpace part = c :: rest → digitVal c = none → partStatuses part = []) ∧
    (∀ (part : List Char) (c : Char) (rest : List Char) (d : Nat),
        trimSpace part = c :: rest → digitVal c = some d →
        (goStr "xx").isSuffixOf (c :: rest) = true → ¬ (c :: rest).length < 3 →
        partStatuses part = (List.range 100).map (fun i => d * 100 + i)) ∧
    partStatuses (goStr "20xx") = (List.range 100).map (fun i => 200 + i) ∧
    parseStatusRanges (goStr "4xx,foo,zz") =
      some ((List.range 100).map (fun i => 400 + i)) := by
  refine ⟨by decide, ?_, ?_, ?_, ?_, by decide, by decide⟩
  · intro part h
    simp only [partStatuses]
    rw [if_pos (Or.inl h)]
  · intro part h
    simp only [partStatuses]
    rw [if_pos (Or.inr h)]
  · intro part c rest htrim hdig
    simp only [partStatuses]
    split
    · rfl
    · rw [htrim]
      simp [hdig]
  · intro part c rest d htrim hdig hsuf hlen
    simp only [partStatuses]
    rw [htrim]
    rw [if_neg (by push_neg; exact ⟨by omega, by simp [hsuf]⟩)]
    simp [hdig]

/-- Witness for C10: a two-character selector contributes nothing. -/
theorem parse_status_ranges_lenient_witness :
    partStatuses (goStr "zz") = [] :=
  parse_status_ranges_lenient.2.1 (goStr "zz") (by decide)

end LiveURLs
